import Mathlib

/-!
Shallow embedding of the McTest/Manticore harness core
(`bin/mctest/__main__.py`): harness values, the opaque engine
capabilities the harness calls into, the Execution Context operations
(`concretize`, `concretize_min`, `concretize_many`, `add_constraint`),
the primitive hooks (`Pass`, `Fail`, `SoftFail`, `Abandon`, `Assume`),
the termination classifier `done_test`, the worker/scheduler layer
(`run_test`, `run_tests`), and the symbolic input injector
(`make_symbolic_input`), together with theorems settling the spec
claims about them.

The `McTest` base class lives in `bin/mctest/common.py`, which is not
part of the sources here; where its behaviour decides a property it is
modelled from the spec and marked as such in the doc comment.
-/

namespace MCTestHarness

/-- Symbolic engine expressions as far as the harness manipulates them:
opaque fresh variables created by `state.new_symbolic_value(width, name)`,
and the equality comparisons `val == concrete_val` the harness builds
when concretizing with `constrain=True`. -/
inductive SymExpr where
  | var (width : Nat) (name : String)
  | eqConst (lhs : SymExpr) (rhs : Int)
deriving DecidableEq

/-- Values flowing through the Python harness: machine integers,
Python strings (old Manticore hands back one-character strings for
bytes), Python booleans, and engine expression objects. -/
inductive Value where
  | int (n : Int)
  | str (s : String)
  | bool (b : Bool)
  | sym (e : SymExpr)
deriving DecidableEq

/-- Embeds `manticore.utils.helpers.issymbolic`, used by
`MCoreTest.is_symbolic`: true exactly on engine expression objects. -/
def issymbolic : Value → Bool
  | .sym _ => true
  | _ => false

/-- A value is concrete when it is not an engine expression object. -/
def isConcrete (v : Value) : Bool := !issymbolic v

/-- Embeds Python `ord` applied to the first character of a string
(the harness only applies it to length-one strings). -/
def ordHead (s : String) : Int :=
  Int.ofNat (match s.data with
  | c :: _ => c.toNat
  | [] => 0)

/-- Embeds the Python expression `val == concrete_val` built by
`concretize`/`concretize_min` before `add_constraint`: comparing an
engine expression with an integer yields a fresh symbolic boolean
expression; comparing concrete Python values yields a Python `bool`. -/
def pyEq (a : Value) (k : Int) : Value :=
  match a with
  | .sym e => .sym (.eqConst e k)
  | .int n => .bool (decide (n = k))
  | .str _ => .bool false
  | .bool _ => .bool false

/-- The opaque Manticore engine capabilities consumed by the context
operations: `state.solve_one` (which may return an integer or a
one-character string), `state.solve_n` as invoked by `concretize_min`,
and `state.solver.eval_upto`. Their behaviour is external to this
repository; theorems that depend on it take it as a hypothesis. -/
structure Engine where
  solveOne : SymExpr → Int ⊕ String
  solveN : Value → Int
  evalUpto : Value → Nat → List Int

/-- One execution path's harness-visible state: the engine handle and
the path's conjunctive, append-only constraint set
(`state.constrain` appends to it). -/
structure MState where
  engine : Engine
  constraints : List Value

/-- A failed Python `assert` in a context operation. The spec's error
taxonomy names this situation `InvalidArgument` for the non-positive
enumeration bound. -/
inductive HarnessError where
  | assertionFailed
deriving DecidableEq

/-- Embeds `MCoreTest.add_constraint` (lines 107 to 111): appends
`expr` to the path's constraint set when `expr` is symbolic, does
nothing otherwise, and returns `True` either way. -/
def add_constraint (st : MState) (expr : Value) : MState × Bool :=
  if issymbolic expr then
    ({ st with constraints := st.constraints ++ [expr] }, true)
  else
    (st, true)

/-- Embeds `MCoreTest.concretize` (lines 77 to 91): an integer is
returned unchanged; a string is asserted to have length one and its
ordinal is returned; otherwise the value is asserted symbolic and
`state.solve_one` is consulted (a string result is again turned into
its ordinal), optionally constraining the value to the solution. -/
def concretize (st : MState) (val : Value) (constrain : Bool) :
    Except HarnessError (Value × MState) :=
  match val with
  | .int n => .ok (.int n, st)
  | .str s =>
      if s.length = 1 then .ok (.int (ordHead s), st)
      else .error .assertionFailed
  | .bool _ => .error .assertionFailed
  | .sym e =>
      match
        (match st.engine.solveOne e with
         | .inl n => Except.ok n
         | .inr s =>
             if s.length = 1 then Except.ok (ordHead s)
             else Except.error HarnessError.assertionFailed) with
      | .error err => .error err
      | .ok k =>
          let st2 := if constrain then (add_constraint st (pyEq (.sym e) k)).1 else st
          .ok (.int k, st2)

/-- Embeds `MCoreTest.concretize_min` (lines 93 to 99): an integer is
returned unchanged; any other value is handed to `state.solve_n`,
optionally constraining the value to the solution. -/
def concretize_min (st : MState) (val : Value) (constrain : Bool) :
    Value × MState :=
  match val with
  | .int n => (.int n, st)
  | v =>
      let k := st.engine.solveN v
      let st2 := if constrain then (add_constraint st (pyEq v k)).1 else st
      (.int k, st2)

/-- Embeds `MCoreTest.concretize_many` (lines 101 to 105): asserts
`0 < max_num`; an integer is returned as a singleton list; any other
value is handed to `state.solver.eval_upto`. -/
def concretize_many (st : MState) (val : Value) (maxNum : Int) :
    Except HarnessError (List Value) :=
  if 0 < maxNum then
    match val with
    | .int n => .ok [.int n]
    | v => .ok ((st.engine.evalUpto v maxNum.toNat).map Value.int)
  else .error .assertionFailed

/-- Modelled from the spec: `api_assume` is implemented by the `McTest`
base class in `bin/mctest/common.py`, which is not part of the sources
here; per the spec the `Assume(expr)` primitive performs
`add_constraint(expr)` (whose own guard makes it a no-op on concrete
values). -/
def api_assume (st : MState) (arg : Value) : MState :=
  (add_constraint st arg).1

/-- Embeds `hook_Assume` (lines 144 to 146): delegates to
`api_assume`. -/
def hook_Assume (st : MState) (arg : Value) : MState :=
  api_assume st arg

/-- The distinguished termination tag `OUR_TERMINATION_REASON`
(line 32). -/
def OUR_TERMINATION_REASON : String := "I McTest\x27d it"

/-- Test outcomes of the spec's Verdict data model. -/
inductive Outcome where
  | pass
  | fail
  | softFail
  | abandon
  | anomalousTermination
deriving DecidableEq

/-- Modelled from the spec: the per-test bookkeeping kept by the
`McTest` base class in `bin/mctest/common.py` (not part of the sources
here) — the recorded outcome for the current test and the recorded
Abandon reason, if any. -/
structure TestInfo where
  outcome : Option Outcome
  abandonReason : Option String
deriving DecidableEq

/-- A `TerminateState(reason, testcase=...)` exception raised by a
primitive handler, modelled as an explicit termination request. -/
structure TermRequest where
  reason : String
  testcase : Bool
deriving DecidableEq

/-- Modelled from the spec: the base-class `pass_test` records
outcome Pass. -/
def basePassTest (ti : TestInfo) : TestInfo :=
  { ti with outcome := some .pass }

/-- Modelled from the spec: the base-class `fail_test` records
outcome Fail. -/
def baseFailTest (ti : TestInfo) : TestInfo :=
  { ti with outcome := some .fail }

/-- Modelled from the spec: the base-class `abandon_test` records
outcome Abandon. -/
def baseAbandonTest (ti : TestInfo) : TestInfo :=
  { ti with outcome := some .abandon }

/-- Embeds `MCoreTest.pass_test` (lines 113 to 115): records the
outcome via the base class, then raises
`TerminateState(OUR_TERMINATION_REASON, testcase=False)`. -/
def pass_test (ti : TestInfo) : TestInfo × Option TermRequest :=
  (basePassTest ti, some ⟨OUR_TERMINATION_REASON, false⟩)

/-- Embeds `MCoreTest.fail_test` (lines 117 to 119). -/
def fail_test (ti : TestInfo) : TestInfo × Option TermRequest :=
  (baseFailTest ti, some ⟨OUR_TERMINATION_REASON, false⟩)

/-- Embeds `MCoreTest.abandon_test` (lines 121 to 123). -/
def abandon_test (ti : TestInfo) : TestInfo × Option TermRequest :=
  (baseAbandonTest ti, some ⟨OUR_TERMINATION_REASON, false⟩)

/-- Modelled from the spec: `api_pass` of the base class invokes
`pass_test`. -/
def api_pass (ti : TestInfo) : TestInfo × Option TermRequest :=
  pass_test ti

/-- Modelled from the spec: `api_fail` of the base class invokes
`fail_test`. -/
def api_fail (ti : TestInfo) : TestInfo × Option TermRequest :=
  fail_test ti

/-- Modelled from the spec: `api_abandon` of the base class records
the abandon reason and invokes `abandon_test`. -/
def api_abandon (ti : TestInfo) (reason : String) : TestInfo × Option TermRequest :=
  abandon_test { ti with abandonReason := some reason }

/-- Modelled from the spec: `api_soft_fail` of the base class records
outcome SoftFail and does not raise, so the path keeps executing. -/
def api_soft_fail (ti : TestInfo) : TestInfo × Option TermRequest :=
  ({ ti with outcome := some .softFail }, none)

/-- Embeds `hook_Pass` (lines 173 to 175). -/
def hook_Pass (ti : TestInfo) : TestInfo × Option TermRequest :=
  api_pass ti

/-- Embeds `hook_Fail` (lines 178 to 180). -/
def hook_Fail (ti : TestInfo) : TestInfo × Option TermRequest :=
  api_fail ti

/-- Embeds `hook_Abandon` (lines 183 to 186). -/
def hook_Abandon (ti : TestInfo) (reason : String) : TestInfo × Option TermRequest :=
  api_abandon ti reason

/-- Embeds `hook_SoftFail` (lines 189 to 191). -/
def hook_SoftFail (ti : TestInfo) : TestInfo × Option TermRequest :=
  api_soft_fail ti

/-- What `done_test` does with a termination event: either it logs an
error line and returns without reporting, or it builds an `MCoreTest`
and calls `report`. -/
inductive DoneAction where
  | loggedError (msg : String)
  | reported (info : TestInfo)
deriving DecidableEq

/-- Embeds `done_test` (lines 204 to 211): when
`OUR_TERMINATION_REASON not in reason` (Python substring containment,
embedded as infix of the character lists) it logs the raw reason with
the state id and returns; otherwise it calls `report` on the current
test bookkeeping. -/
def done_test (stateId : Nat) (info : TestInfo) (reason : String) : DoneAction :=
  if ¬ (OUR_TERMINATION_REASON.data <:+: reason.data) then
    .loggedError ("State " ++ toString stateId ++
      " terminated for unknown reason: " ++ reason)
  else
    .reported info

/-- Modelled from the spec: `report` lives in `bin/mctest/common.py`
(not part of the sources here); per the spec's Termination Normalizer
a reported event yields the recorded outcome (defaulting to Abandon
when none was recorded), while a termination without the distinguished
tag is classified AnomalousTermination. -/
def verdictOf (a : DoneAction) : Outcome :=
  match a with
  | .reported info => info.outcome.getD .abandon
  | .loggedError _ => .anomalousTermination

/-- The observable result of one worker: either the exploration body
ran to completion, or its uncaught exception was caught at the worker
boundary and logged. -/
inductive WorkerResult where
  | completed
  | loggedError (msg : String)
deriving DecidableEq

/-- Embeds `run_test` (lines 243 to 248): runs `do_run_test` — here
abstracted as the dispatched test's exploration body, whose uncaught
exception is an `Except.error` — under a bare `except` clause that
logs the exception instead of propagating it. -/
def run_test (body : Except String Unit) : WorkerResult :=
  match body with
  | .ok _ => .completed
  | .error e => .loggedError ("Uncaught exception: " ++ e)

/-- Embeds `run_tests` (lines 251 to 268): dispatches `run_test` once
per discovered test over the worker pool (embedded as mapping
`run_test` over the per-test exploration bodies), waits for all of
them (`pool.close`, `pool.join`), then calls `exit(0)` — the collected
per-test results are never examined. Returns the per-test worker
results together with the process exit status. -/
def run_tests (bodies : List (Except String Unit)) : List WorkerResult × Nat :=
  (bodies.map run_test, 0)

/-- One path's CPU memory as far as the injector touches it: a map
from addresses to the values written there. -/
structure CPUState where
  mem : Int → Option Value

/-- Embeds `state.cpu.write_int(addr, value, width)` at the byte
granularity the injector uses: point update of the memory map. -/
def write_int (st : CPUState) (addr : Int) (v : Value) (_width : Nat) : CPUState :=
  { st with mem := fun a => if a = addr then some v else st.mem a }

/-- The symbolic name given to input byte `i`:
`"MCTEST_INPUT_{}".format(i)` (line 131). -/
def mkInputName (i : Nat) : String := "MCTEST_INPUT_" ++ toString i

/-- Embeds `state.new_symbolic_value(width, name)`: a fresh engine
expression with the given width and name. -/
def new_symbolic_value (width : Nat) (name : String) : Value :=
  .sym (.var width name)

/-- The loop body of `make_symbolic_input` (lines 129 to 133),
iterating `i` upward while `k` counts the remaining iterations: create
the fresh byte named from offset `i`, write it at
`input_begin_ea + i`, append it to `data`. -/
def injectLoop (inputBegin : Int) (i : Nat) : Nat → CPUState → List Value × CPUState
  | 0, st => ([], st)
  | k + 1, st =>
      let b := new_symbolic_value 8 (mkInputName i)
      let r := injectLoop inputBegin (i + 1) k (write_int st (inputBegin + (i : Int)) b 8)
      (b :: r.1, r.2)

/-- Embeds `make_symbolic_input` (lines 126 to 135): for
`i in xrange(input_end_ea - input_begin_ea)` create a fresh symbolic
byte named from `i`, write it at `input_begin_ea + i`, and return the
ordered list of injected values. -/
def make_symbolic_input (st : CPUState) (inputBegin inputEnd : Int) :
    List Value × CPUState :=
  injectLoop inputBegin 0 (inputEnd - inputBegin).toNat st

/-- A trivial concrete engine used to evaluate closed instances of the
context operations. -/
def engine0 : Engine := ⟨fun _ => Sum.inl 0, fun _ => 0, fun _ _ => []⟩

/-- A concrete execution context over `engine0` with an empty
constraint set. -/
def mstate0 : MState := ⟨engine0, []⟩

/-- A concrete engine for which 65 is the single admissible value of
every expression. -/
def engine65 : Engine := ⟨fun _ => Sum.inl 65, fun _ => 65, fun _ _ => [65]⟩

/-- A concrete execution context over `engine65`. -/
def mstate65 : MState := ⟨engine65, []⟩

/-- A second concrete engine agreeing with `engine65` on `solve_n` but
differing elsewhere, standing for an independent re-run. -/
def engine65b : Engine := ⟨fun _ => Sum.inr "A", fun _ => 65, fun _ _ => []⟩

/-- A concrete execution context over `engine65b`. -/
def mstate65b : MState := ⟨engine65b, []⟩

/-- C3: `hook_Pass` (and likewise `hook_Fail`, `hook_Abandon`) records
the corresponding outcome and raises the termination request carrying
`OUR_TERMINATION_REASON`, while `hook_SoftFail` records SoftFail and
raises no termination request, so a later Pass or Fail on the same
path overrides the recorded outcome. -/
theorem hooks_record_outcome_and_request_termination (ti : TestInfo) (reason : String) :
    hook_Pass ti = ({ ti with outcome := some Outcome.pass },
      some ⟨OUR_TERMINATION_REASON, false⟩) ∧
    hook_Fail ti = ({ ti with outcome := some Outcome.fail },
      some ⟨OUR_TERMINATION_REASON, false⟩) ∧
    hook_Abandon ti reason =
      ({ ti with outcome := some Outcome.abandon, abandonReason := some reason },
        some ⟨OUR_TERMINATION_REASON, false⟩) ∧
    hook_SoftFail ti = ({ ti with outcome := some Outcome.softFail }, none) ∧
    (hook_Pass (hook_SoftFail ti).1).1.outcome = some Outcome.pass ∧
    (hook_Fail (hook_SoftFail ti).1).1.outcome = some Outcome.fail :=
  ⟨rfl, rfl, rfl, rfl, rfl, rfl⟩

/-- C7: `add_constraint` is a no-op on a concrete expression and
appends a symbolic expression to the constraint set (returning `True`
either way), and the `Assume` hook adds its argument to the constraint
set exactly when the argument is symbolic. -/
theorem add_constraint_appends_iff_symbolic (st : MState) (v : Value) :
    add_constraint st v =
      ((if issymbolic v then { st with constraints := st.constraints ++ [v] } else st),
        true) ∧
    (hook_Assume st v).constraints =
      st.constraints ++ (if issymbolic v then [v] else []) := by
  constructor
  · unfold add_constraint
    by_cases h : issymbolic v <;> simp [h]
  · unfold hook_Assume api_assume add_constraint
    by_cases h : issymbolic v <;> simp [h]

/-- C2: the scheduler's exit status is 0 no matter what the dispatched
tests did — `run_tests` calls `exit(0)` unconditionally and never
examines the collected per-test results, even when a test recorded a
Fail outcome. -/
theorem run_tests_exit_status_always_zero :
    (hook_Fail ⟨none, none⟩).1.outcome = some Outcome.fail ∧
    (run_tests [Except.ok ()]).2 = 0 ∧
    ∀ bodies : List (Except String Unit), (run_tests bodies).2 = 0 :=
  ⟨rfl, rfl, fun _ => rfl⟩

/-- C4: replacing one dispatched test's exploration body by an uncaught
internal failure leaves a logged worker result for that test, keeps one
result per dispatched test, and leaves every sibling test's result
unchanged. -/
theorem worker_failure_isolated (bodies : List (Except String Unit)) (i : Nat)
    (e : String) (hi : i < bodies.length) :
    (run_tests (bodies.set i (Except.error e))).1.length = bodies.length ∧
    (run_tests (bodies.set i (Except.error e))).1[i]? =
      some (WorkerResult.loggedError ("Uncaught exception: " ++ e)) ∧
    ∀ j, j ≠ i →
      (run_tests (bodies.set i (Except.error e))).1[j]? = (run_tests bodies).1[j]? := by
  refine ⟨?_, ?_, ?_⟩
  · simp [run_tests]
  · rw [run_tests, List.getElem?_map, List.getElem?_set_self hi]
    rfl
  · intro j hj
    rw [run_tests, run_tests, List.getElem?_map, List.getElem?_map,
      List.getElem?_set_ne (fun h => hj h.symm)]

/-- C4 witness: a concrete two-test batch with a fault injected into
the first test. -/
theorem worker_failure_isolated_witness :
    0 < ([Except.ok (), Except.ok ()] : List (Except String Unit)).length ∧
    ((run_tests (([Except.ok (), Except.ok ()] : List (Except String Unit)).set 0
        (Except.error "boom"))).1.length = 2 ∧
      (run_tests (([Except.ok (), Except.ok ()] : List (Except String Unit)).set 0
        (Except.error "boom"))).1[0]? =
          some (WorkerResult.loggedError ("Uncaught exception: " ++ "boom")) ∧
      ∀ j, j ≠ 0 →
        (run_tests (([Except.ok (), Except.ok ()] : List (Except String Unit)).set 0
          (Except.error "boom"))).1[j]? =
        (run_tests ([Except.ok (), Except.ok ()] : List (Except String Unit))).1[j]?) :=
  ⟨by decide, worker_failure_isolated [Except.ok (), Except.ok ()] 0 "boom" (by decide)⟩

/-- C5 counterexample: the one-character string is a concrete value,
yet `concretize` hands back its ordinal, not the string itself. -/
theorem concretize_changes_concrete_string :
    isConcrete (Value.str "A") = true ∧
    concretize mstate0 (Value.str "A") false = .ok (Value.int 65, mstate0) ∧
    Value.int 65 ≠ Value.str "A" :=
  ⟨rfl, rfl, by decide⟩

/-- C5 amended: the concrete pass-through holds for integer values,
for both `concretize` and `concretize_min`; a concrete one-character
string is mapped by `concretize` to its ordinal. -/
theorem concretize_concrete_int_passthrough (st : MState) (n : Int) (constrain : Bool)
    (s : String) (h : s.length = 1) :
    concretize st (Value.int n) constrain = .ok (Value.int n, st) ∧
    concretize_min st (Value.int n) constrain = (Value.int n, st) ∧
    concretize st (Value.str s) constrain = .ok (Value.int (ordHead s), st) := by
  refine ⟨rfl, rfl, ?_⟩
  unfold concretize
  simp [h]

/-- C5 amended witness at a concrete context, integer and string. -/
theorem concretize_concrete_int_passthrough_witness :
    ("A" : String).length = 1 ∧
    (concretize mstate0 (Value.int 7) false = .ok (Value.int 7, mstate0) ∧
      concretize_min mstate0 (Value.int 7) false = (Value.int 7, mstate0) ∧
      concretize mstate0 (Value.str "A") false = .ok (Value.int (ordHead "A"), mstate0)) :=
  ⟨rfl, concretize_concrete_int_passthrough mstate0 7 false "A" rfl⟩

/-- C6: when the engine's `solve_n` obeys the spec's `solve_min`
capability — it returns an admissible value that is a lower bound of
the admissible set `S` — `concretize_min` returns the minimal
admissible concrete value, and any two contexts whose engines both
obey that capability for the same admissible set return the same
value, so the result is deterministic across re-runs with identical
constraints. -/
theorem concretize_min_returns_minimum (S : List Int) (e : SymExpr) (st st2 : MState)
    (h1 : st.engine.solveN (Value.sym e) ∈ S)
    (h2 : ∀ k ∈ S, st.engine.solveN (Value.sym e) ≤ k)
    (h3 : st2.engine.solveN (Value.sym e) ∈ S)
    (h4 : ∀ k ∈ S, st2.engine.solveN (Value.sym e) ≤ k) :
    ∃ m : Int, concretize_min st (Value.sym e) false = (Value.int m, st) ∧
      m ∈ S ∧ (∀ k ∈ S, m ≤ k) ∧
      concretize_min st2 (Value.sym e) false = (Value.int m, st2) := by
  refine ⟨st.engine.solveN (Value.sym e), rfl, h1, h2, ?_⟩
  have heq : st2.engine.solveN (Value.sym e) = st.engine.solveN (Value.sym e) :=
    le_antisymm (h4 _ h1) (h2 _ h3)
  unfold concretize_min
  simp [heq]

/-- C6 witness: two concrete contexts whose engines both report 65 as
the minimum of the admissible set containing 65 and 70. -/
theorem concretize_min_returns_minimum_witness :
    (mstate65.engine.solveN (Value.sym (.var 8 "x")) ∈ [(65 : Int), 70] ∧
      (∀ k ∈ [(65 : Int), 70], mstate65.engine.solveN (Value.sym (.var 8 "x")) ≤ k) ∧
      mstate65b.engine.solveN (Value.sym (.var 8 "x")) ∈ [(65 : Int), 70] ∧
      (∀ k ∈ [(65 : Int), 70], mstate65b.engine.solveN (Value.sym (.var 8 "x")) ≤ k)) ∧
    (∃ m : Int, concretize_min mstate65 (Value.sym (.var 8 "x")) false =
        (Value.int m, mstate65) ∧
      m ∈ [(65 : Int), 70] ∧ (∀ k ∈ [(65 : Int), 70], m ≤ k) ∧
      concretize_min mstate65b (Value.sym (.var 8 "x")) false = (Value.int m, mstate65b)) :=
  ⟨⟨by decide, by decide, by decide, by decide⟩,
    concretize_min_returns_minimum [(65 : Int), 70] (.var 8 "x") mstate65 mstate65b
      (by decide) (by decide) (by decide) (by decide)⟩

/-- C8 counterexample: a concrete one-character string is not returned
as a singleton list by `concretize_many`; the call is forwarded to the
solver's enumerator instead. -/
theorem concretize_many_changes_concrete_string :
    isConcrete (Value.str "A") = true ∧
    concretize_many mstate65 (Value.str "A") 1 = .ok [Value.int 65] ∧
    [Value.int 65] ≠ [Value.str "A"] :=
  ⟨rfl, rfl, by decide⟩

/-- C8 amended: `concretize_many` fails on a non-positive bound (the
Python assert, the spec's InvalidArgument); a concrete integer yields
the singleton list; any other value is forwarded to the engine's
`eval_upto`, and when the engine honours its contract — at most
`max_n` distinct values — so does the returned list. -/
theorem concretize_many_bound_and_enumeration (st : MState) (v : Value)
    (m : Int) (hm : m ≤ 0) (k : Int) (n : Int) (hn : 0 < n) (e : SymExpr)
    (hlen : (st.engine.evalUpto (Value.sym e) n.toNat).length ≤ n.toNat)
    (hnd : (st.engine.evalUpto (Value.sym e) n.toNat).Nodup) :
    concretize_many st v m = .error .assertionFailed ∧
    concretize_many st (Value.int k) n = .ok [Value.int k] ∧
    ∃ l : List Value, concretize_many st (Value.sym e) n = .ok l ∧
      l.length ≤ n.toNat ∧ l.Nodup := by
  refine ⟨?_, ?_, ?_⟩
  · unfold concretize_many
    simp [not_lt.mpr hm]
  · unfold concretize_many
    simp [hn]
  · refine ⟨(st.engine.evalUpto (Value.sym e) n.toNat).map Value.int, ?_, ?_, ?_⟩
    · unfold concretize_many
      simp [hn]
    · simpa using hlen
    · exact hnd.map (fun a b hab => by injection hab)

/-- C8 amended witness at a concrete context and bounds. -/
theorem concretize_many_bound_and_enumeration_witness :
    ((-1 : Int) ≤ 0 ∧ (0 : Int) < 1 ∧
      (mstate65.engine.evalUpto (Value.sym (.var 8 "x")) (1 : Int).toNat).length ≤
        (1 : Int).toNat ∧
      (mstate65.engine.evalUpto (Value.sym (.var 8 "x")) (1 : Int).toNat).Nodup) ∧
    (concretize_many mstate65 (Value.bool true) (-1) = .error .assertionFailed ∧
      concretize_many mstate65 (Value.int 3) 1 = .ok [Value.int 3] ∧
      ∃ l : List Value, concretize_many mstate65 (Value.sym (.var 8 "x")) 1 = .ok l ∧
        l.length ≤ (1 : Int).toNat ∧ l.Nodup) :=
  ⟨⟨by decide, by decide, by decide, by decide⟩,
    concretize_many_bound_and_enumeration mstate65 (Value.bool true) (-1) (by decide)
      3 1 (by decide) (.var 8 "x") (by decide) (by decide)⟩

/-- C10: whenever the distinguished tag occurs anywhere as a substring
of the termination reason — not only on exact equality — `done_test`
treats the termination as harness-initiated and reports the recorded
test state. -/
theorem done_test_reports_on_substring (stateId : Nat) (info : TestInfo) (reason : String)
    (h : OUR_TERMINATION_REASON.data <:+: reason.data) :
    done_test stateId info reason = .reported info := by
  unfold done_test
  simp [h]

/-- C10 witness: a reason that strictly contains the tag. -/
theorem done_test_reports_on_substring_witness :
    OUR_TERMINATION_REASON.data <:+: ("raised: I McTest\x27d it [stack]" : String).data ∧
    done_test 3 ⟨some Outcome.fail, none⟩ "raised: I McTest\x27d it [stack]" =
      .reported ⟨some Outcome.fail, none⟩ :=
  ⟨by decide, done_test_reports_on_substring 3 ⟨some Outcome.fail, none⟩
    "raised: I McTest\x27d it [stack]" (by decide)⟩

/-- C1 counterexample: a termination reason that differs from the
distinguished tag but contains it as a substring is not reported as
anomalous — `done_test` reports the recorded state, and with a
recorded Pass outcome the resulting verdict is Pass. -/
theorem done_test_nonequal_tag_reported_as_pass :
    (OUR_TERMINATION_REASON ++ " during teardown") ≠ OUR_TERMINATION_REASON ∧
    done_test 7 ⟨some Outcome.pass, none⟩ (OUR_TERMINATION_REASON ++ " during teardown") =
      .reported ⟨some Outcome.pass, none⟩ ∧
    verdictOf (done_test 7 ⟨some Outcome.pass, none⟩
      (OUR_TERMINATION_REASON ++ " during teardown")) = Outcome.pass := by
  refine ⟨by decide, by decide, by decide⟩

/-- C1 amended: for every path-termination event whose reason does not
contain the distinguished tag as a substring, `done_test` logs an
error line carrying the raw reason, the event's classification is
AnomalousTermination, and no recorded test state is reported — in
particular it is never classified as Pass. -/
theorem done_test_no_tag_is_logged_anomalous (stateId : Nat) (info : TestInfo)
    (reason : String) (h : ¬ (OUR_TERMINATION_REASON.data <:+: reason.data)) :
    done_test stateId info reason =
      .loggedError ("State " ++ toString stateId ++
        " terminated for unknown reason: " ++ reason) ∧
    verdictOf (done_test stateId info reason) = Outcome.anomalousTermination ∧
    ∀ i : TestInfo, done_test stateId info reason ≠ .reported i := by
  unfold done_test verdictOf
  simp [h]

/-- C1 amended witness: a crash-style reason without the tag. -/
theorem done_test_no_tag_is_logged_anomalous_witness :
    (¬ (OUR_TERMINATION_REASON.data <:+: ("Invalid memory access" : String).data)) ∧
    (done_test 5 ⟨some Outcome.pass, none⟩ "Invalid memory access" =
      .loggedError ("State " ++ toString 5 ++
        " terminated for unknown reason: " ++ "Invalid memory access") ∧
      verdictOf (done_test 5 ⟨some Outcome.pass, none⟩ "Invalid memory access") =
        Outcome.anomalousTermination ∧
      ∀ i : TestInfo, done_test 5 ⟨some Outcome.pass, none⟩ "Invalid memory access" ≠
        .reported i) :=
  ⟨by decide, done_test_no_tag_is_logged_anomalous 5 ⟨some Outcome.pass, none⟩
    "Invalid memory access" (by decide)⟩

/-- Decimal value of a digit string, used to invert `Nat.repr`. -/
def digitsVal (l : List Char) : Nat :=
  l.foldl (fun a c => 10 * a + (c.toNat - 48)) 0

theorem toDigitsCore_append_acc (f : Nat) : ∀ (n : Nat) (ds : List Char),
    Nat.toDigitsCore 10 f n ds = Nat.toDigitsCore 10 f n [] ++ ds := by
  induction f with
  | zero =>
    intro n ds
    simp [Nat.toDigitsCore]
  | succ f ih =>
    intro n ds
    simp only [Nat.toDigitsCore]
    by_cases h : n / 10 = 0
    · simp [h]
    · simp only [h, if_false]
      rw [ih (n / 10) (Nat.digitChar (n % 10) :: ds),
        ih (n / 10) [Nat.digitChar (n % 10)]]
      simp

theorem digitsVal_append_one (l : List Char) (c : Char) :
    digitsVal (l ++ [c]) = 10 * digitsVal l + (c.toNat - 48) := by
  simp [digitsVal, List.foldl_append]

theorem digitChar_toNat_sub (k : Nat) (h : k < 10) :
    (Nat.digitChar k).toNat - 48 = k := by
  interval_cases k <;> rfl

theorem digitsVal_toDigitsCore (f : Nat) : ∀ n, n < f →
    digitsVal (Nat.toDigitsCore 10 f n []) = n := by
  induction f with
  | zero =>
    intro n h
    exact absurd h (Nat.not_lt_zero n)
  | succ f ih =>
    intro n h
    simp only [Nat.toDigitsCore]
    by_cases h0 : n / 10 = 0
    · simp only [h0, if_true]
      have h1 : digitsVal [Nat.digitChar (n % 10)] =
          (Nat.digitChar (n % 10)).toNat - 48 := by
        simp [digitsVal]
      rw [h1, digitChar_toNat_sub (n % 10) (Nat.mod_lt n (by norm_num))]
      omega
    · simp only [h0, if_false]
      rw [toDigitsCore_append_acc, digitsVal_append_one,
        ih (n / 10) (by omega),
        digitChar_toNat_sub (n % 10) (Nat.mod_lt n (by omega))]
      omega

theorem natRepr_injective (m n : Nat) (h : Nat.repr m = Nat.repr n) : m = n := by
  have hd : Nat.toDigits 10 m = Nat.toDigits 10 n := congrArg String.data h
  have hm := digitsVal_toDigitsCore (m + 1) m (Nat.lt_succ_self m)
  have hn := digitsVal_toDigitsCore (n + 1) n (Nat.lt_succ_self n)
  have hv : digitsVal (Nat.toDigitsCore 10 (m + 1) m []) =
      digitsVal (Nat.toDigitsCore 10 (n + 1) n []) := congrArg digitsVal hd
  omega

theorem mkInputName_injective (i j : Nat) (h : mkInputName i = mkInputName j) :
    i = j := by
  unfold mkInputName at h
  have h2 : ("MCTEST_INPUT_" : String).data ++ (toString i).data =
      ("MCTEST_INPUT_" : String).data ++ (toString j).data := by
    have h1 := congrArg String.data h
    rwa [String.data_append, String.data_append] at h1
  exact natRepr_injective i j (String.ext (List.append_cancel_left h2))

theorem injectLoop_fst (b : Int) (k : Nat) : ∀ (i : Nat) (st : CPUState),
    (injectLoop b i k st).1 =
      (List.range k).map (fun j => Value.sym (.var 8 (mkInputName (i + j)))) := by
  induction k with
  | zero =>
    intro i st
    rfl
  | succ k ih =>
    intro i st
    simp only [injectLoop, new_symbolic_value]
    rw [ih]
    rw [List.range_succ_eq_map, List.map_cons, List.map_map]
    refine congrArg₂ List.cons (by simp) ?_
    apply List.map_congr_left
    intro j _
    have hj : i + 1 + j = i + (j + 1) := by omega
    simp [Function.comp, Nat.succ_eq_add_one, hj]

theorem injectLoop_mem_outside (b : Int) (k : Nat) : ∀ (i : Nat) (st : CPUState)
    (a : Int), (∀ j : Nat, j < k → a ≠ b + ((i : Int) + j)) →
    (injectLoop b i k st).2.mem a = st.mem a := by
  induction k with
  | zero =>
    intro i st a _
    rfl
  | succ k ih =>
    intro i st a ha
    simp only [injectLoop]
    rw [ih (i + 1) _ a]
    · have h0 : a ≠ b + (i : Int) := by
        have := ha 0 (Nat.succ_pos k)
        simpa using this
      simp [write_int, h0]
    · intro j hj
      have := ha (j + 1) (by omega)
      intro hEq
      apply this
      rw [hEq]
      push_cast
      ring

theorem injectLoop_mem_written (b : Int) (k : Nat) : ∀ (i : Nat) (st : CPUState)
    (j : Nat), j < k →
    (injectLoop b i k st).2.mem (b + ((i : Int) + j)) =
      some (Value.sym (.var 8 (mkInputName (i + j)))) := by
  induction k with
  | zero =>
    intro i st j h
    exact absurd h (Nat.not_lt_zero j)
  | succ k ih =>
    intro i st j hj
    simp only [injectLoop]
    cases j with
    | zero =>
      rw [injectLoop_mem_outside b k (i + 1) _ (b + ((i : Int) + (0 : Nat)))]
      · simp [write_int, new_symbolic_value]
      · intro j2 hj2
        push_cast
        omega
    | succ j2 =>
      have haddr : b + ((i : Int) + ((j2 + 1 : Nat) : Int)) =
          b + (((i + 1 : Nat) : Int) + (j2 : Int)) := by
        push_cast
        ring
      have hname : i + (j2 + 1) = (i + 1) + j2 := by omega
      rw [haddr, hname]
      exact ih (i + 1) _ j2 (by omega)

/-- C9: `make_symbolic_input` returns exactly the ascending sequence of
fresh symbolic bytes named from their offsets, of length
`input_end - input_begin`; each address of the range holds its own
byte in the final memory, and the offset-derived names are pairwise
distinct. -/
theorem make_symbolic_input_spec (st : CPUState) (inputBegin inputEnd : Int)
    (h : inputBegin ≤ inputEnd) :
    ((make_symbolic_input st inputBegin inputEnd).1 =
      (List.range (inputEnd - inputBegin).toNat).map
        (fun j => Value.sym (.var 8 (mkInputName j)))) ∧
    ((make_symbolic_input st inputBegin inputEnd).1.length =
      (inputEnd - inputBegin).toNat) ∧
    (((inputEnd - inputBegin).toNat : Int) = inputEnd - inputBegin) ∧
    (∀ j : Nat, j < (inputEnd - inputBegin).toNat →
      (make_symbolic_input st inputBegin inputEnd).2.mem (inputBegin + j) =
        some (Value.sym (.var 8 (mkInputName j)))) ∧
    (∀ j j2 : Nat, mkInputName j = mkInputName j2 → j = j2) := by
  have hfst : (make_symbolic_input st inputBegin inputEnd).1 =
      (List.range (inputEnd - inputBegin).toNat).map
        (fun j => Value.sym (.var 8 (mkInputName j))) := by
    unfold make_symbolic_input
    rw [injectLoop_fst]
    simp
  refine ⟨hfst, ?_, ?_, ?_, fun j j2 hj => mkInputName_injective j j2 hj⟩
  · rw [hfst]
    simp
  · omega
  · intro j hj
    unfold make_symbolic_input
    have := injectLoop_mem_written inputBegin ((inputEnd - inputBegin).toNat) 0 st j hj
    simpa using this

/-- C9 witness: a two-byte input range over an empty memory. -/
theorem make_symbolic_input_spec_witness :
    (100 : Int) ≤ 102 ∧
    (((make_symbolic_input ⟨fun _ => none⟩ 100 102).1 =
      (List.range ((102 : Int) - 100).toNat).map
        (fun j => Value.sym (.var 8 (mkInputName j)))) ∧
    ((make_symbolic_input ⟨fun _ => none⟩ 100 102).1.length =
      ((102 : Int) - 100).toNat) ∧
    ((((102 : Int) - 100).toNat : Int) = (102 : Int) - 100) ∧
    (∀ j : Nat, j < ((102 : Int) - 100).toNat →
      (make_symbolic_input ⟨fun _ => none⟩ 100 102).2.mem ((100 : Int) + j) =
        some (Value.sym (.var 8 (mkInputName j)))) ∧
    (∀ j j2 : Nat, mkInputName j = mkInputName j2 → j = j2)) :=
  ⟨by decide, make_symbolic_input_spec ⟨fun _ => none⟩ 100 102 (by decide)⟩

end MCTestHarness
